import Mathlib

/-!
A shallow embedding of `main.go` of argo-helm-versioner.

The program walks a directory, loads every `.yaml`/`.yml` file as an Argo CD
application, asks the chart repository for the newest chart version and prints
a sorted table.

What `main.go` takes from outside the repository is kept as an explicit
parameter of the embedding:

* the package `github.com/Masterminds/semver` (`Semver`; `mastermindsSemver`
  follows the package itself);
* `sort.Sort` and `sort.Slice` of the Go standard library (a sorting routine,
  with the documented contract `SortContract`, or `SortContractOn` when `Less`
  is an ordering on some slices only);
* the file system, the YAML decoder and the HTTP client (`Env`);
* `filepath.Walk`, as the sequence of entries it presents to its callback.

Go's `(value, error)` results are pairs `value × Option Error`; a `nil` error
is `none`.
-/

namespace ArgoHelmVersioner

/-! ## Data model -/

/-- A Go `error` value, identified with its message. -/
abbrev Error := String

/-- Struct `AppCheckResult` of `main.go`: one row of the report. -/
structure AppCheckResult where
  FilePath : String
  Application : String
  CurrentVersion : String
  LatestVersion : String
  Status : String
deriving DecidableEq, Repr

/-- Field `Metadata` of `ArgoApplication`. -/
structure ArgoMetadata where
  Name : String
deriving DecidableEq, Repr

/-- Field `Spec.Source` of `ArgoApplication`. -/
structure ArgoSource where
  RepoURL : String
  TargetRevision : String
  Chart : String
deriving DecidableEq, Repr

/-- Field `Spec` of `ArgoApplication`. -/
structure ArgoSpec where
  Source : ArgoSource
deriving DecidableEq, Repr

/-- Struct `ArgoApplication` of `main.go`. -/
structure ArgoApplication where
  Metadata : ArgoMetadata
  Spec : ArgoSpec
deriving DecidableEq, Repr

/-- One element of an entry list of `HelmRepoIndex`: `struct { Version string }`. -/
structure IndexEntry where
  Version : String
deriving DecidableEq, Repr

/-- Struct `HelmRepoIndex` of `main.go`. The Go map is an association list;
a chart name that is not a key is absent from the index. -/
structure HelmRepoIndex where
  Entries : List (String × List IndexEntry)
deriving DecidableEq, Repr

/-- The Go map lookup `index.Entries[chartName]`: the entry list of the chart,
and the nil slice for a chart name that is not a key. -/
def HelmRepoIndex.entriesOf (index : HelmRepoIndex) (chartName : String) : List IndexEntry :=
  (index.Entries.lookup chartName).getD []

/-! ## The semantic-version package -/

/-- The part of `github.com/Masterminds/semver` that `main.go` calls:
`semver.NewVersion` (its error collapsed to `none`, which is all that
`NewChartVersion` looks at), `(*Version).LessThan` and `(*Version).String`. -/
structure Semver where
  Version : Type
  NewVersion : String → Option Version
  LessThan : Version → Version → Bool
  String : Version → String

/-- Struct `ChartVersion` of `main.go`: a wrapper around a parsed version. -/
structure ChartVersion (lib : Semver) where
  Version : lib.Version

/-- Function `NewChartVersion` of `main.go`: `nil` (here `none`) for a string
the package does not parse. -/
def NewChartVersion (lib : Semver) (versionString : String) : Option (ChartVersion lib) :=
  match lib.NewVersion versionString with
  | none => none
  | some v => some ⟨v⟩

/-- Method `ChartVersions.Less` of `main.go`, on the elements at the two indices. -/
def ChartVersions.Less (lib : Semver) (ci cj : ChartVersion lib) : Bool :=
  lib.LessThan ci.Version cj.Version

/-! ## Sorting -/

/-- The requirement Go's `sort.Interface` puts on `Less`: a transitive ordering
whose "neither is less" relation is transitive too. -/
structure StrictWeakOrder {α : Type} (less : α → α → Bool) : Prop where
  irrefl : ∀ a, less a a = false
  trans : ∀ a b c, less a b = true → less b c = true → less a c = true
  incompTrans : ∀ a b c, less a b = false → less b c = false → less a c = false

/-- What `sort.IsSorted` checks: no element is less than its predecessor. -/
def IsSorted {α : Type} (less : α → α → Bool) (l : List α) : Prop :=
  l.Chain' (fun a b => less b a = false)

/-- The documented contract of `sort.Sort` and `sort.Slice`: the slice is
rearranged (only by swaps) into ascending order as determined by `Less`,
provided `Less` is an ordering as `sort.Interface` requires. Stability is not
promised. -/
def SortContract {α : Type} (sortFn : (α → α → Bool) → List α → List α) : Prop :=
  ∀ less : α → α → Bool, StrictWeakOrder less →
    ∀ l : List α, (sortFn less l).Perm l ∧ IsSorted less (sortFn less l)

/-- The requirement of `sort.Interface` on `Less`, for the elements of one
slice: `Less` is only ever called on two of them. -/
def StrictWeakOrderOn {α : Type} (less : α → α → Bool) (l : List α) : Prop :=
  (∀ a ∈ l, less a a = false) ∧
  (∀ a ∈ l, ∀ b ∈ l, ∀ c ∈ l, less a b = true → less b c = true → less a c = true) ∧
  (∀ a ∈ l, ∀ b ∈ l, ∀ c ∈ l, less a b = false → less b c = false → less a c = false)

instance {α : Type} (less : α → α → Bool) (l : List α) :
    Decidable (StrictWeakOrderOn less l) := by
  unfold StrictWeakOrderOn
  infer_instance

/-- The contract of `sort.Sort` and `sort.Slice`, slice by slice: the routine
only swaps elements, so its result is a rearrangement of the slice whatever
`Less` does; and the result is in ascending order when `Less` is an ordering
of the elements of the slice as `sort.Interface` requires. -/
def SortContractOn {α : Type} (sortFn : (α → α → Bool) → List α → List α) : Prop :=
  ∀ (less : α → α → Bool) (l : List α),
    (sortFn less l).Perm l ∧ (StrictWeakOrderOn less l → IsSorted less (sortFn less l))

/-- The inner loop of Go's `insertionSort`
(`for j := i; j > a && data.Less(j, j-1); j-- { data.Swap(j, j-1) }`):
the element `x` at index `i` moves left past every predecessor it is less
than. The sorted part before index `i` is given back to front. -/
def insertBack {α : Type} (less : α → α → Bool) (x : α) : List α → List α
  | [] => [x]
  | y :: ys => if less x y then y :: insertBack less x ys else x :: y :: ys

/-- Go's `insertionSort(data, 0, n)`, all that `sort.Sort` and `sort.Slice` run
on a short slice (up to 12 elements since Go 1.19, up to 6 before). -/
def insertionSort {α : Type} (less : α → α → Bool) (l : List α) : List α :=
  (l.foldl (fun sortedRev x => insertBack less x sortedRev) []).reverse

/-! ## The version-resolution step -/

/-- Lines 145-161 of `checkLatestHelmVersion`: parse the chart's entries,
drop the unparseable ones, sort, and return the string form of the last one.
`sort.Sort` only swaps elements, so the sorted slice is as long as `versions`;
the last arm of the match stands for the panic of `versions[len(versions)-1]`
on an empty slice. -/
def resolveLatestVersion (lib : Semver)
    (sortSort : (ChartVersion lib → ChartVersion lib → Bool) →
      List (ChartVersion lib) → List (ChartVersion lib))
    (index : HelmRepoIndex) (chartName : String) : String × Option Error :=
  let versions := (index.entriesOf chartName).filterMap
    (fun entry => NewChartVersion lib entry.Version)
  if versions.length = 0 then
    ("", some ("no valid versions found for chart " ++ chartName))
  else
    match (sortSort (ChartVersions.Less lib) versions).getLast? with
    | some cv => (lib.String cv.Version, none)
    | none => ("", some "runtime error: index out of range [-1]")

/-- The slice `versions` after the loop of lines 147-152: the chart's entries
that the package parses, in the order of the index. -/
def parsedVersions (lib : Semver) (index : HelmRepoIndex) (chartName : String) :
    List (ChartVersion lib) :=
  (index.entriesOf chartName).filterMap (fun entry => NewChartVersion lib entry.Version)

/-! ## The outside world -/

/-- An HTTP response, as far as the program looks at it: what
`ioutil.ReadAll(resp.Body)` returns. -/
structure Response where
  Body : Except Error String

/-- The file system, the YAML decoder and the HTTP client the program calls:
`ioutil.ReadFile`, `yaml.Unmarshal` into an `ArgoApplication`, `http.Get` and
`yaml.Unmarshal` into a `HelmRepoIndex`. -/
structure Env where
  ReadFile : String → Except Error String
  UnmarshalApplication : String → Except Error ArgoApplication
  Get : String → Except Error Response
  UnmarshalIndex : String → Except Error HelmRepoIndex

/-- The observable effects of a run so far: what was written to standard
output and the URLs requested with `http.Get`, both oldest first. -/
structure World where
  stdout : List String
  requests : List String
deriving DecidableEq, Repr

/-! ## The functions of `main.go` -/

/-- Function `loadArgoApplicationFromFile` of `main.go`. -/
def loadArgoApplicationFromFile (env : Env) (filename : String) : Except Error ArgoApplication :=
  match env.ReadFile filename with
  | .error err => .error err
  | .ok buf =>
    match env.UnmarshalApplication buf with
    | .error err => .error err
    | .ok app => .ok app

/-- Function `checkLatestHelmVersion` of `main.go`. -/
def checkLatestHelmVersion (env : Env) (lib : Semver)
    (sortSort : (ChartVersion lib → ChartVersion lib → Bool) →
      List (ChartVersion lib) → List (ChartVersion lib))
    (repoURL chartName : String) (w : World) : (String × Option Error) × World :=
  let w1 := { w with requests := w.requests ++ [repoURL ++ "/index.yaml"] }
  match env.Get (repoURL ++ "/index.yaml") with
  | .error err => (("", some err), w1)
  | .ok resp =>
    match resp.Body with
    | .error err => (("", some err), w1)
    | .ok bodyBytes =>
      match env.UnmarshalIndex bodyBytes with
      | .error err => (("", some err), w1)
      | .ok index => (resolveLatestVersion lib sortSort index chartName, w1)

/-- Function `processArgoCDApplicationFile` of `main.go`. The slice behind the
pointer `results` is passed in and handed back, followed by the world and the
returned error. -/
def processArgoCDApplicationFile (env : Env) (lib : Semver)
    (sortSort : (ChartVersion lib → ChartVersion lib → Bool) →
      List (ChartVersion lib) → List (ChartVersion lib))
    (filePath : String) (results : List AppCheckResult) (w : World) :
    List AppCheckResult × World × Option Error :=
  match loadArgoApplicationFromFile env filePath with
  | .error _ => (results, w, none)
  | .ok app =>
    if app.Spec.Source.Chart ≠ "" then
      let w1 := { w with
        stdout := w.stdout ++ ["Checking Chart: " ++ app.Spec.Source.Chart ++ "\n"] }
      let status := "Up-to-date"
      let ((latestVersion, err), w2) :=
        checkLatestHelmVersion env lib sortSort app.Spec.Source.RepoURL app.Spec.Source.Chart w1
      let status := if err ≠ none then "Error" else status
      let status := if latestVersion ≠ app.Spec.Source.TargetRevision then "Update available"
        else status
      (results ++ [{
          FilePath := filePath
          Application := app.Metadata.Name
          CurrentVersion := app.Spec.Source.TargetRevision
          LatestVersion := latestVersion
          Status := status }], w2, none)
    else (results, w, none)

/-- Go's `strings.HasSuffix`. -/
def HasSuffix (s suffix : String) : Bool :=
  suffix.toList.isSuffixOf s.toList

/-- One call `filepath.Walk` makes to its callback: the path, `info.IsDir()`
and the error of reaching the entry, if any. -/
structure WalkEntry where
  path : String
  isDir : Bool
  err : Option Error
deriving DecidableEq, Repr

/-- Go's `filepath.Walk`, given the entries under the root in the order it
reaches them: the callback is called on one entry after the other, and the
first error it returns ends the walk and is the result. (The sentinel
`filepath.SkipDir` is not an `Error` here; no function of `main.go` returns it.) -/
def Walk {σ : Type} (fn : WalkEntry → σ → σ × Option Error) :
    List WalkEntry → σ → σ × Option Error
  | [], s => (s, none)
  | e :: rest, s =>
    match fn e s with
    | (s1, some err) => (s1, some err)
    | (s1, none) => Walk fn rest s1

/-- The callback `walkDir` hands to `filepath.Walk` (lines 28-36). -/
def walkDirFunc {σ : Type} (processFile : String → σ → σ × Option Error)
    (e : WalkEntry) (s : σ) : σ × Option Error :=
  match e.err with
  | some err => (s, some err)
  | none =>
    if !e.isDir && (HasSuffix e.path ".yaml" || HasSuffix e.path ".yml") then
      processFile e.path s
    else (s, none)

/-- Function `walkDir` of `main.go`; `entries` is what `filepath.Walk` finds
under `dirPath`, and `σ` the state the callback works on. -/
def walkDir {σ : Type} (entries : List WalkEntry)
    (processFile : String → σ → σ × Option Error) (s : σ) : σ × Option Error :=
  Walk (walkDirFunc processFile) entries s

/-- Go's `<` on strings: lexicographic order of the two character sequences. -/
def stringLess (a b : String) : Bool :=
  decide (a.toList < b.toList)

/-- The comparison `main` hands to `sort.Slice` (lines 181-186), on the rows at
the two indices. -/
def resultLess (ri rj : AppCheckResult) : Bool :=
  if ri.Application = rj.Application then stringLess ri.Status rj.Status
  else stringLess ri.Application rj.Application

/-- The sorting step of `main`: `sort.Slice(results, ...)`. -/
def sortResults
    (sortSlice : (AppCheckResult → AppCheckResult → Bool) →
      List AppCheckResult → List AppCheckResult)
    (results : List AppCheckResult) : List AppCheckResult :=
  sortSlice resultLess results

/-- The callback `main` hands to `walkDir` (lines 172-174), on the pair of the
result slice and the world. -/
def mainProcessFile (env : Env) (lib : Semver)
    (sortSort : (ChartVersion lib → ChartVersion lib → Bool) →
      List (ChartVersion lib) → List (ChartVersion lib))
    (filePath : String) (s : List AppCheckResult × World) :
    (List AppCheckResult × World) × Option Error :=
  match processArgoCDApplicationFile env lib sortSort filePath s.1 s.2 with
  | (results, w, err) => ((results, w), err)

/-- Function `main` up to the table: the rows it prints below the header, in
order, or `none` when the walk fails (then it prints the error and returns). -/
def mainRows (env : Env) (lib : Semver)
    (sortSort : (ChartVersion lib → ChartVersion lib → Bool) →
      List (ChartVersion lib) → List (ChartVersion lib))
    (sortSlice : (AppCheckResult → AppCheckResult → Bool) →
      List AppCheckResult → List AppCheckResult)
    (entries : List WalkEntry) (w : World) : Option (List AppCheckResult) :=
  match walkDir entries (mainProcessFile env lib sortSort) ([], w) with
  | (_, some _) => none
  | ((results, _), none) => some (sortResults sortSlice results)

/-- What it means to call `processFile` on the given paths in order, stopping
at the first error. -/
def callInOrder {σ : Type} (processFile : String → σ → σ × Option Error) :
    List String → σ → σ × Option Error
  | [], s => (s, none)
  | p :: ps, s =>
    match processFile p s with
    | (s1, some err) => (s1, some err)
    | (s1, none) => callInOrder processFile ps s1

/-- The entries `walkDir` passes on: not a directory, and a path ending in
`.yaml` or `.yml`. -/
def isManifest (e : WalkEntry) : Bool :=
  e.isDir = false ∧ (HasSuffix e.path ".yaml" = true ∨ HasSuffix e.path ".yml" = true)

/-! ## A model of the semantic-version package

The package `github.com/Masterminds/semver` (version 1, the one the import path
of `main.go` names) is not part of this repository. The definitions of this
section follow its `NewVersion`, `String`, `Compare` and `LessThan`, and serve
to evaluate the program on concrete indexes. -/

/-- The value type `semver.Version` of the package: the three numbers (each an
`int64`), the pre-release string and the build metadata. -/
structure SemVersion where
  major : Nat
  minor : Nat
  patch : Nat
  pre : List Char
  metadata : List Char
deriving DecidableEq, Repr

/-- The characters of a pre-release or build identifier: `[0-9A-Za-z-]`. -/
def identChar (c : Char) : Bool :=
  c.isAlphanum || c == '-'

/-- Go's `strings.Split(s, sep)` for a one-character separator: the pieces of
a character sequence between the occurrences of `sep`. -/
def splitOnChar (sep : Char) : List Char → List (List Char)
  | [] => [[]]
  | c :: cs =>
    match splitOnChar sep cs with
    | [] => [[]]
    | p :: ps => if c = sep then [] :: p :: ps else (c :: p) :: ps

/-- A dot-separated series of non-empty identifiers, as the pattern of the
package asks of a pre-release and of build metadata. -/
def validIdents (cs : List Char) : Bool :=
  (splitOnChar '.' cs).all (fun p => !p.isEmpty && p.all identChar)

/-- The number a sequence of decimal digits denotes. -/
def digitsValue (ds : List Char) : Nat :=
  ds.foldl (fun n c => 10 * n + (c.toNat - '0'.toNat)) 0

/-- Go's `strconv.ParseInt(s, 10, 64)` on a sequence of decimal digits: a
range error (here `none`) from `2^63` on. -/
def parseInt64 (ds : List Char) : Option Nat :=
  if digitsValue ds < 2 ^ 63 then some (digitsValue ds) else none

/-- Go's `strconv.ParseUint(s, 10, 64)`: the value of a non-empty sequence of
decimal digits below `2^64`, and an error (here `none`) for everything else. -/
def parseUint64 (s : List Char) : Option Nat :=
  if !s.isEmpty && s.all Char.isDigit && decide (digitsValue s < 2 ^ 64) then
    some (digitsValue s)
  else none

/-- An optional `.digits` segment at the front of `cs`: its value (0 when the
segment is absent) and what follows it; `none` for a dot without digits and
for a number that does not fit an `int64`. -/
def optSegment (cs : List Char) : Option (Nat × List Char) :=
  match cs with
  | '.' :: rest =>
    if (rest.takeWhile Char.isDigit).isEmpty then none
    else
      match parseInt64 (rest.takeWhile Char.isDigit) with
      | none => none
      | some n => some (n, rest.dropWhile Char.isDigit)
  | _ => some (0, cs)

/-- An optional `+metadata` tail that must reach the end of the string. -/
def optMetadata (cs : List Char) : Option (List Char) :=
  match cs with
  | [] => some []
  | '+' :: m => if validIdents m then some m else none
  | _ => none

/-- The function `semver.NewVersion` of the package, its error collapsed to
`none`. The whole string has to match an optional `v`, the major number, up to
two further dot-separated numbers (absent ones are 0), an optional
`-prerelease` and an optional `+metadata`; each number has to fit an `int64`. -/
def SemVersion.NewVersion (v : String) : Option SemVersion :=
  let cs := match v.toList with
    | 'v' :: r => r
    | cs => cs
  if (cs.takeWhile Char.isDigit).isEmpty then none
  else
    match parseInt64 (cs.takeWhile Char.isDigit) with
    | none => none
    | some major =>
      match optSegment (cs.dropWhile Char.isDigit) with
      | none => none
      | some (minor, r1) =>
        match optSegment r1 with
        | none => none
        | some (patch, r2) =>
          match r2 with
          | '-' :: r3 =>
            let p := r3.takeWhile (fun c => c != '+')
            if validIdents p then
              match optMetadata (r3.dropWhile (fun c => c != '+')) with
              | none => none
              | some m => some ⟨major, minor, patch, p, m⟩
            else none
          | _ =>
            match optMetadata r2 with
            | none => none
            | some m => some ⟨major, minor, patch, [], m⟩

/-- The method `(*Version).String` of the package: `major.minor.patch`, then
`-prerelease` and `+metadata` when present. -/
def SemVersion.String (v : SemVersion) : String :=
  toString v.major ++ "." ++ toString v.minor ++ "." ++ toString v.patch
    ++ (if v.pre.isEmpty then "" else "-" ++ String.mk v.pre)
    ++ (if v.metadata.isEmpty then "" else "+" ++ String.mk v.metadata)

/-- The function `comparePrePart` of the package, on two pre-release
identifiers (`lt`, `eq`, `gt` for -1, 0, 1). Equal strings are equal; an empty
one comes first; two that `ParseUint` rejects compare as strings; one it
rejects comes after one it accepts; and of two numbers `s` comes after `o`
when it is greater, and before it otherwise, also when the two are the same
number written differently. -/
def comparePrePart (s o : List Char) : Ordering :=
  if s = o then .eq
  else if s.isEmpty then (if !o.isEmpty then .lt else .gt)
  else if o.isEmpty then (if !s.isEmpty then .gt else .lt)
  else
    match parseUint64 o, parseUint64 s with
    | none, none => if decide (o < s) then .gt else .lt
    | none, some _ => .lt
    | some _, none => .gt
    | some oi, some si => if oi < si then .gt else .lt

/-- The function `comparePrerelease` of the package: the identifiers of the
two pre-release strings are compared position by position, a missing one
counting as empty, and the first difference decides. -/
def comparePrerelease (v o : List Char) : Ordering :=
  (List.range (max (splitOnChar '.' v).length (splitOnChar '.' o).length)).foldl
    (fun d i => d.then
      (comparePrePart ((splitOnChar '.' v).getD i []) ((splitOnChar '.' o).getD i [])))
    .eq

/-- The end of `(*Version).Compare`, for two versions with the same numbers:
no pre-release on either side is a tie, a version without pre-release comes
after one with a pre-release, and two pre-releases are compared by
`comparePrerelease`. -/
def comparePre (v o : SemVersion) : Ordering :=
  match v.pre.isEmpty, o.pre.isEmpty with
  | true, true => .eq
  | true, false => .gt
  | false, true => .lt
  | false, false => comparePrerelease v.pre o.pre

/-- The method `(*Version).Compare` of the package: major, then minor, then
patch, then the pre-release parts. Build metadata takes no part. -/
def SemVersion.Compare (v o : SemVersion) : Ordering :=
  (compare v.major o.major).then
    ((compare v.minor o.minor).then
      ((compare v.patch o.patch).then (comparePre v o)))

/-- The method `(*Version).LessThan` of the package: `Compare` is negative. -/
def SemVersion.LessThan (v o : SemVersion) : Bool :=
  v.Compare o == .lt

/-- The package as the program uses it. -/
def mastermindsSemver : Semver where
  Version := SemVersion
  NewVersion := SemVersion.NewVersion
  LessThan := SemVersion.LessThan
  String := SemVersion.String

instance : DecidableEq mastermindsSemver.Version :=
  inferInstanceAs (DecidableEq SemVersion)

/-! ## Concrete inputs -/

/-- The key `main` sorts the rows by: application name, then status. -/
def sortKey (r : AppCheckResult) : String × String :=
  (r.Application, r.Status)

/-- The ascending order of the sort keys: by application name, then by status. -/
def keyLe (k1 k2 : String × String) : Prop :=
  k1.1 < k2.1 ∨ (k1.1 = k2.1 ∧ k1.2 ≤ k2.2)

/-- The manifest of the end-to-end scenarios: application `app-a` with chart
`mychart` from `https://charts.example.com`, pinned to `targetRevision`. -/
def scenarioApp (targetRevision : String) : ArgoApplication :=
  { Metadata := { Name := "app-a" }
    Spec := { Source := {
      RepoURL := "https://charts.example.com"
      TargetRevision := targetRevision
      Chart := "mychart" } } }

/-- A manifest with a plain Git source: no `chart` field. -/
def gitApp : ArgoApplication :=
  { Metadata := { Name := "app-git" }
    Spec := { Source := {
      RepoURL := "https://git.example.com/repo.git"
      TargetRevision := "HEAD"
      Chart := "" } } }

/-- An index whose only chart is `mychart`, with the given version strings. -/
def scenarioIndex (versions : List String) : HelmRepoIndex :=
  { Entries := [("mychart", versions.map IndexEntry.mk)] }

/-- A world in which every file decodes to `app` and every repository serves
`index`. -/
def scenarioEnv (app : ArgoApplication) (index : HelmRepoIndex) : Env :=
  { ReadFile := fun _ => .ok "manifest"
    UnmarshalApplication := fun _ => .ok app
    Get := fun _ => .ok { Body := .ok "index" }
    UnmarshalIndex := fun _ => .ok index }

/-- A world in which every file decodes to `app` and every request fails. -/
def offlineEnv (app : ArgoApplication) : Env :=
  { ReadFile := fun _ => .ok "manifest"
    UnmarshalApplication := fun _ => .ok app
    Get := fun _ => .error "dial tcp: connection refused"
    UnmarshalIndex := fun _ => .error "unreachable" }

/-- A world that has produced no output and made no request. -/
def emptyWorld : World :=
  { stdout := [], requests := [] }

/-! ## Sorting lemmas -/

theorem StrictWeakOrder.on {α : Type} {less : α → α → Bool} (h : StrictWeakOrder less)
    (l : List α) : StrictWeakOrderOn less l :=
  ⟨fun a _ => h.irrefl a, fun a _ b _ c _ => h.trans a b c,
    fun a _ b _ c _ => h.incompTrans a b c⟩

theorem StrictWeakOrderOn.subset {α : Type} {less : α → α → Bool} {l l1 : List α}
    (h : StrictWeakOrderOn less l) (hs : ∀ x ∈ l1, x ∈ l) : StrictWeakOrderOn less l1 :=
  ⟨fun a ha => h.1 a (hs a ha),
    fun a ha b hb c hc => h.2.1 a (hs a ha) b (hs b hb) c (hs c hc),
    fun a ha b hb c hc => h.2.2 a (hs a ha) b (hs b hb) c (hs c hc)⟩

theorem StrictWeakOrderOn.asymm {α : Type} {less : α → α → Bool} {l : List α}
    (h : StrictWeakOrderOn less l) {a b : α} (ha : a ∈ l) (hb : b ∈ l)
    (hab : less a b = true) : less b a = false := by
  cases hba : less b a
  · rfl
  · have := h.2.1 a ha b hb a ha hab hba
    rw [h.1 a ha] at this
    exact absurd this (by simp)

theorem IsSorted.pairwiseOn {α : Type} {less : α → α → Bool} {l : List α}
    (h : StrictWeakOrderOn less l) (hl : IsSorted less l) :
    l.Pairwise (fun a b => less b a = false) := by
  unfold IsSorted at hl
  induction l with
  | nil => exact List.Pairwise.nil
  | cons a t ih =>
    rw [List.chain'_cons'] at hl
    have ht := ih (h.subset (fun x hx => List.mem_cons_of_mem a hx)) hl.2
    refine List.pairwise_cons.2 ⟨fun c hc => ?_, ht⟩
    cases t with
    | nil => cases hc
    | cons b t1 =>
      have hab : less b a = false := hl.1 b (by simp)
      rcases List.mem_cons.1 hc with hc | hc
      · rw [hc]; exact hab
      · have hbc : less c b = false := (List.pairwise_cons.1 ht).1 c hc
        exact h.2.2 c (List.mem_cons_of_mem a (List.mem_cons_of_mem b hc))
          b (List.mem_cons_of_mem a (List.mem_cons_self b t1)) a (List.mem_cons_self a _)
          hbc hab

theorem IsSorted.pairwise {α : Type} {less : α → α → Bool} (h : StrictWeakOrder less)
    {l : List α} (hl : IsSorted less l) : l.Pairwise (fun a b => less b a = false) :=
  IsSorted.pairwiseOn (h.on l) hl

theorem getLast_not_less {α : Type} {less : α → α → Bool} {l : List α}
    (h : StrictWeakOrderOn less l) (hl : IsSorted less l) {m : α}
    (hm : l.getLast? = some m) : ∀ x ∈ l, less m x = false := by
  obtain ⟨ys, rfl⟩ := List.getLast?_eq_some_iff.1 hm
  have hp := IsSorted.pairwiseOn h hl
  rw [List.pairwise_append] at hp
  intro x hx
  rcases List.mem_append.1 hx with hx | hx
  · exact hp.2.2 x hx m (List.mem_singleton.2 rfl)
  · rw [List.mem_singleton.1 hx]
    exact h.1 m (by simp)

theorem insertBack_perm {α : Type} (less : α → α → Bool) (x : α) (l : List α) :
    (insertBack less x l).Perm (x :: l) := by
  induction l with
  | nil => exact List.Perm.refl _
  | cons y ys ih =>
    unfold insertBack
    split
    · exact (List.Perm.cons y ih).trans (List.Perm.swap x y ys)
    · exact List.Perm.refl _

theorem insertBack_descending {α : Type} {less : α → α → Bool} {L : List α}
    (h : StrictWeakOrderOn less L) (x : α) (hx : x ∈ L) (l : List α)
    (hsub : ∀ y ∈ l, y ∈ L) (hl : l.Pairwise (fun a b => less a b = false)) :
    (insertBack less x l).Pairwise (fun a b => less a b = false) := by
  induction l with
  | nil => simp [insertBack]
  | cons y ys ih =>
    rw [List.pairwise_cons] at hl
    have hy : y ∈ L := hsub y (List.mem_cons_self y ys)
    have hys : ∀ z ∈ ys, z ∈ L := fun z hz => hsub z (List.mem_cons_of_mem y hz)
    unfold insertBack
    split
    · rename_i hxy
      rw [List.pairwise_cons]
      refine ⟨fun z hz => ?_, ih hys hl.2⟩
      rcases List.mem_cons.1 ((insertBack_perm less x ys).subset hz) with hz | hz
      · rw [hz]; exact h.asymm hx hy hxy
      · exact hl.1 z hz
    · rename_i hxy
      have hxy : less x y = false := by simpa using hxy
      rw [List.pairwise_cons]
      refine ⟨fun z hz => ?_, List.pairwise_cons.2 hl⟩
      rcases List.mem_cons.1 hz with hz | hz
      · rw [hz]; exact hxy
      · exact h.2.2 x hx y hy z (hys z hz) hxy (hl.1 z hz)

theorem foldl_insertBack_perm {α : Type} (less : α → α → Bool) (l acc : List α) :
    (l.foldl (fun sortedRev x => insertBack less x sortedRev) acc).Perm (l ++ acc) := by
  induction l generalizing acc with
  | nil => exact List.Perm.refl _
  | cons x xs ih =>
    simp only [List.foldl_cons, List.cons_append]
    exact (ih _).trans
      ((List.Perm.append_left xs (insertBack_perm less x acc)).trans List.perm_middle)

theorem foldl_insertBack_descending {α : Type} {less : α → α → Bool} {L : List α}
    (h : StrictWeakOrderOn less L) (l acc : List α)
    (hl : ∀ y ∈ l, y ∈ L) (hsub : ∀ y ∈ acc, y ∈ L)
    (hacc : acc.Pairwise (fun a b => less a b = false)) :
    (l.foldl (fun sortedRev x => insertBack less x sortedRev) acc).Pairwise
      (fun a b => less a b = false) := by
  induction l generalizing acc with
  | nil => exact hacc
  | cons x xs ih =>
    have hx : x ∈ L := hl x (List.mem_cons_self x xs)
    refine ih _ (fun y hy => hl y (List.mem_cons_of_mem x hy)) (fun y hy => ?_)
      (insertBack_descending h x hx acc hsub hacc)
    rcases List.mem_cons.1 ((insertBack_perm less x acc).subset hy) with hy | hy
    · rw [hy]; exact hx
    · exact hsub y hy

/-- Go's insertion sort meets the contract of `sort.Sort`, slice by slice. -/
theorem insertionSort_contractOn {α : Type} :
    SortContractOn (insertionSort : (α → α → Bool) → List α → List α) := by
  intro less l
  constructor
  · unfold insertionSort
    refine (List.reverse_perm _).trans ?_
    simpa using foldl_insertBack_perm less l []
  · intro h
    unfold insertionSort IsSorted
    apply List.Pairwise.chain'
    rw [List.pairwise_reverse]
    exact foldl_insertBack_descending h l [] (fun y hy => hy) (fun y hy => by cases hy)
      List.Pairwise.nil

/-- Go's insertion sort meets the contract of `sort.Sort`. -/
theorem insertionSort_contract {α : Type} :
    SortContract (insertionSort : (α → α → Bool) → List α → List α) :=
  fun less h l =>
    ⟨(insertionSort_contractOn less l).1, (insertionSort_contractOn less l).2 (h.on l)⟩

/-! ## The order of the report -/

theorem stringLess_iff (a b : String) : stringLess a b = true ↔ a < b := by
  unfold stringLess
  rw [decide_eq_true_iff]
  exact String.lt_iff_toList_lt.symm

theorem stringLess_false_iff (a b : String) : stringLess a b = false ↔ b ≤ a := by
  rw [← not_lt, ← stringLess_iff, Bool.not_eq_true]

theorem resultLess_iff (a b : AppCheckResult) :
    resultLess a b = true ↔
      a.Application < b.Application ∨
        (a.Application = b.Application ∧ a.Status < b.Status) := by
  unfold resultLess
  by_cases h : a.Application = b.Application
  · simp [h, stringLess_iff]
  · simp [h, stringLess_iff]

theorem resultLess_false_iff (a b : AppCheckResult) :
    resultLess b a = false ↔
      a.Application < b.Application ∨
        (a.Application = b.Application ∧ a.Status ≤ b.Status) := by
  rw [← Bool.not_eq_true, resultLess_iff]
  constructor
  · intro h
    rcases lt_trichotomy a.Application b.Application with h1 | h1 | h1
    · exact Or.inl h1
    · refine Or.inr ⟨h1, not_lt.1 (fun h2 => h (Or.inr ⟨h1.symm, h2⟩))⟩
    · exact absurd (Or.inl h1) h
  · rintro (h1 | ⟨h1, h2⟩) (h3 | ⟨h3, h4⟩)
    · exact lt_asymm h1 h3
    · exact absurd h3.symm (ne_of_lt h1)
    · exact absurd h1.symm (ne_of_lt h3)
    · exact absurd h4 (not_lt.2 h2)

theorem resultLess_strictWeak : StrictWeakOrder resultLess := by
  refine ⟨fun a => ?_, fun a b c hab hbc => ?_, fun a b c hab hbc => ?_⟩
  · rw [resultLess_false_iff]
    exact Or.inr ⟨rfl, le_refl _⟩
  · rw [resultLess_iff] at hab hbc ⊢
    rcases hab with h1 | ⟨h1, h2⟩ <;> rcases hbc with h3 | ⟨h3, h4⟩
    · exact Or.inl (lt_trans h1 h3)
    · exact Or.inl (h3 ▸ h1)
    · exact Or.inl (h1 ▸ h3)
    · exact Or.inr ⟨h1.trans h3, lt_trans h2 h4⟩
  · rw [resultLess_false_iff] at hab hbc ⊢
    rcases hab with h1 | ⟨h1, h2⟩ <;> rcases hbc with h3 | ⟨h3, h4⟩
    · exact Or.inl (lt_trans h3 h1)
    · exact Or.inl (h3 ▸ h1)
    · exact Or.inl (h1 ▸ h3)
    · exact Or.inr ⟨h3.trans h1, le_trans h4 h2⟩

theorem resultLess_antisymm (a b : AppCheckResult) (hab : resultLess b a = false)
    (hba : resultLess a b = false) : sortKey a = sortKey b := by
  rw [resultLess_false_iff] at hab hba
  unfold sortKey
  rcases hab with h1 | ⟨h1, h2⟩ <;> rcases hba with h3 | ⟨h3, h4⟩
  · exact absurd h3 (lt_asymm h1)
  · exact absurd h3.symm (ne_of_lt h1)
  · exact absurd h1.symm (ne_of_lt h3)
  · rw [h1, le_antisymm h2 h4]

theorem sortResults_sorted
    (sortSlice : (AppCheckResult → AppCheckResult → Bool) →
      List AppCheckResult → List AppCheckResult)
    (hsort : SortContract sortSlice) (results : List AppCheckResult) :
    (sortResults sortSlice results).Pairwise (fun a b => resultLess b a = false) :=
  IsSorted.pairwise resultLess_strictWeak (hsort resultLess resultLess_strictWeak results).2

/-! ## The claims about the report -/

/-- C5: the sorting step of `main` yields a permutation of the collected rows
in which, for every pair of adjacent rows, the earlier application name is
less than or equal to the later one, and for equal names the earlier status is
less than or equal to the later one. -/
theorem sortResults_perm_ordered
    (sortSlice : (AppCheckResult → AppCheckResult → Bool) →
      List AppCheckResult → List AppCheckResult)
    (hsort : SortContract sortSlice) (results : List AppCheckResult) :
    (sortResults sortSlice results).Perm results ∧
      (sortResults sortSlice results).Chain' (fun a b =>
        a.Application ≤ b.Application ∧
          (a.Application = b.Application → a.Status ≤ b.Status)) := by
  have h := hsort resultLess resultLess_strictWeak results
  refine ⟨h.1, ?_⟩
  refine List.Chain'.imp (fun a b hab => ?_) h.2
  rcases (resultLess_false_iff a b).1 hab with h1 | ⟨h1, h2⟩
  · exact ⟨le_of_lt h1, fun he => absurd he (ne_of_lt h1)⟩
  · exact ⟨le_of_eq h1, fun _ => h2⟩

/-- Witness of C5: three rows, two of them of the same application, sorted by
Go's insertion sort. -/
theorem sortResults_perm_ordered_witness :
    SortContract (insertionSort : (AppCheckResult → AppCheckResult → Bool) →
      List AppCheckResult → List AppCheckResult) ∧
    ((sortResults insertionSort
        [⟨"b.yaml", "app-b", "1.0.0", "1.0.0", "Up-to-date"⟩,
         ⟨"a2.yaml", "app-a", "1.0.0", "1.2.0", "Update available"⟩,
         ⟨"a1.yaml", "app-a", "1.0.0", "", "Error"⟩]).Perm
        [⟨"b.yaml", "app-b", "1.0.0", "1.0.0", "Up-to-date"⟩,
         ⟨"a2.yaml", "app-a", "1.0.0", "1.2.0", "Update available"⟩,
         ⟨"a1.yaml", "app-a", "1.0.0", "", "Error"⟩] ∧
      (sortResults insertionSort
        [⟨"b.yaml", "app-b", "1.0.0", "1.0.0", "Up-to-date"⟩,
         ⟨"a2.yaml", "app-a", "1.0.0", "1.2.0", "Update available"⟩,
         ⟨"a1.yaml", "app-a", "1.0.0", "", "Error"⟩]).Chain' (fun a b =>
        a.Application ≤ b.Application ∧
          (a.Application = b.Application → a.Status ≤ b.Status))) :=
  ⟨insertionSort_contract, sortResults_perm_ordered insertionSort insertionSort_contract _⟩

/-- C8, as stated, fails: two rows with the same application and status, taken
in the two possible orders, come out of the sorting step in two different
orders. -/
theorem sortResults_depends_on_order :
    [(⟨"a.yaml", "app", "1.0.0", "1.0.0", "Up-to-date"⟩ : AppCheckResult),
      ⟨"b.yaml", "app", "1.0.0", "1.0.0", "Up-to-date"⟩].Perm
      [⟨"b.yaml", "app", "1.0.0", "1.0.0", "Up-to-date"⟩,
        ⟨"a.yaml", "app", "1.0.0", "1.0.0", "Up-to-date"⟩] ∧
    sortResults insertionSort
      [⟨"a.yaml", "app", "1.0.0", "1.0.0", "Up-to-date"⟩,
        ⟨"b.yaml", "app", "1.0.0", "1.0.0", "Up-to-date"⟩] ≠
    sortResults insertionSort
      [⟨"b.yaml", "app", "1.0.0", "1.0.0", "Up-to-date"⟩,
        ⟨"a.yaml", "app", "1.0.0", "1.0.0", "Up-to-date"⟩] :=
  ⟨List.Perm.swap _ _ _, by decide⟩

/-- C8, amended: for two collections that are permutations of each other the
sorting step produces permutations of each other with the same sequence of
(application, status) pairs, and the same sequence of rows when no two
different rows share both application and status. -/
theorem sortResults_order_independent
    (sortSlice : (AppCheckResult → AppCheckResult → Bool) →
      List AppCheckResult → List AppCheckResult)
    (hsort : SortContract sortSlice) (r1 r2 : List AppCheckResult) (hperm : r1.Perm r2) :
    (sortResults sortSlice r1).Perm (sortResults sortSlice r2) ∧
      (sortResults sortSlice r1).map sortKey = (sortResults sortSlice r2).map sortKey ∧
      ((∀ a ∈ r1, ∀ b ∈ r1, sortKey a = sortKey b → a = b) →
        sortResults sortSlice r1 = sortResults sortSlice r2) := by
  have h1 := hsort resultLess resultLess_strictWeak r1
  have h2 := hsort resultLess resultLess_strictWeak r2
  have p1 := sortResults_sorted sortSlice hsort r1
  have p2 := sortResults_sorted sortSlice hsort r2
  have hp : (sortResults sortSlice r1).Perm (sortResults sortSlice r2) :=
    (h1.1.trans hperm).trans h2.1.symm
  refine ⟨hp, ?_, fun hinj => ?_⟩
  · have hanti : ∀ a b : String × String,
        a ∈ (sortResults sortSlice r1).map sortKey →
        b ∈ (sortResults sortSlice r2).map sortKey → keyLe a b → keyLe b a → a = b := by
      rintro ⟨a1, a2⟩ ⟨b1, b2⟩ _ _ (h | ⟨h, h'⟩) (g | ⟨g, g'⟩)
      · exact absurd g (lt_asymm h)
      · exact absurd g.symm (ne_of_lt h)
      · exact absurd h.symm (ne_of_lt g)
      · simp only at h h' g'
        rw [h, le_antisymm h' g']
    have q1 : ((sortResults sortSlice r1).map sortKey).Pairwise keyLe := by
      rw [List.pairwise_map]
      exact p1.imp (fun {a b} hab => (resultLess_false_iff a b).1 hab)
    have q2 : ((sortResults sortSlice r2).map sortKey).Pairwise keyLe := by
      rw [List.pairwise_map]
      exact p2.imp (fun {a b} hab => (resultLess_false_iff a b).1 hab)
    exact List.Perm.eq_of_sorted hanti q1 q2 (hp.map sortKey)
  · refine List.Perm.eq_of_sorted (fun a b ha hb hab hba => ?_) p1 p2 hp
    exact hinj a (h1.1.subset ha) b (hperm.symm.subset (h2.1.subset hb))
      (resultLess_antisymm a b hab hba)

/-- Witness of C8, amended: two rows of different applications, taken in the
two possible orders. -/
theorem sortResults_order_independent_witness :
    SortContract (insertionSort : (AppCheckResult → AppCheckResult → Bool) →
      List AppCheckResult → List AppCheckResult) ∧
    [(⟨"b.yaml", "app-b", "1.0.0", "1.0.0", "Up-to-date"⟩ : AppCheckResult),
      ⟨"a.yaml", "app-a", "1.0.0", "1.2.0", "Update available"⟩].Perm
      [⟨"a.yaml", "app-a", "1.0.0", "1.2.0", "Update available"⟩,
        ⟨"b.yaml", "app-b", "1.0.0", "1.0.0", "Up-to-date"⟩] ∧
    sortResults insertionSort
      [⟨"b.yaml", "app-b", "1.0.0", "1.0.0", "Up-to-date"⟩,
        ⟨"a.yaml", "app-a", "1.0.0", "1.2.0", "Update available"⟩] =
    sortResults insertionSort
      [⟨"a.yaml", "app-a", "1.0.0", "1.2.0", "Update available"⟩,
        ⟨"b.yaml", "app-b", "1.0.0", "1.0.0", "Up-to-date"⟩] :=
  ⟨insertionSort_contract, List.Perm.swap _ _ _,
    (sortResults_order_independent insertionSort insertionSort_contract _ _
      (List.Perm.swap _ _ _)).2.2 (by decide)⟩

/-! ## The claims about the version resolver -/

/-- The chart versions the resolver keeps: exactly the parsed forms of the
entries the package accepts. -/
theorem mem_parsed_iff (lib : Semver) (entries : List IndexEntry) (cv : ChartVersion lib) :
    cv ∈ entries.filterMap (fun entry => NewChartVersion lib entry.Version) ↔
      ∃ e ∈ entries, lib.NewVersion e.Version = some cv.Version := by
  rw [List.mem_filterMap]
  constructor
  · rintro ⟨e, he, hcv⟩
    refine ⟨e, he, ?_⟩
    unfold NewChartVersion at hcv
    cases hv : lib.NewVersion e.Version with
    | none => rw [hv] at hcv; cases hcv
    | some v =>
      rw [hv] at hcv
      cases hcv
      rfl
  · rintro ⟨e, he, hv⟩
    refine ⟨e, he, ?_⟩
    unfold NewChartVersion
    rw [hv]

/-- With at least one chart version kept, the resolver returns the string form
of one of them, the last element of the sorted slice; that element is a
maximum when `Less` is an ordering of the kept versions. -/
theorem resolve_some (lib : Semver)
    (sortSort : (ChartVersion lib → ChartVersion lib → Bool) →
      List (ChartVersion lib) → List (ChartVersion lib))
    (hsort : SortContractOn sortSort) (index : HelmRepoIndex) (chartName : String)
    (hne : parsedVersions lib index chartName ≠ []) :
    ∃ cv, cv ∈ parsedVersions lib index chartName ∧
      resolveLatestVersion lib sortSort index chartName = (lib.String cv.Version, none) ∧
      (StrictWeakOrderOn (ChartVersions.Less lib) (parsedVersions lib index chartName) →
        ∀ x ∈ parsedVersions lib index chartName,
          lib.LessThan cv.Version x.Version = false) := by
  have hs := hsort (ChartVersions.Less lib) (parsedVersions lib index chartName)
  have hlen : ¬ (parsedVersions lib index chartName).length = 0 := by
    rwa [List.length_eq_zero]
  cases hlast : (sortSort (ChartVersions.Less lib)
      (parsedVersions lib index chartName)).getLast? with
  | none =>
    rw [List.getLast?_eq_none_iff] at hlast
    rw [hlast] at hs
    exact absurd (List.Perm.nil_eq hs.1).symm hne
  | some cv =>
    refine ⟨cv, hs.1.subset (List.mem_of_getLast?_eq_some hlast), ?_, fun hswo x hx => ?_⟩
    · unfold parsedVersions at hlen hlast
      unfold resolveLatestVersion
      simp only [hlen, if_false, hlast]
    · exact getLast_not_less (hswo.subset (fun y hy => hs.1.subset hy)) (hs.2 hswo) hlast x
        (hs.1.symm.subset hx)

/-- With no chart version kept, the resolver fails. -/
theorem resolve_none (lib : Semver)
    (sortSort : (ChartVersion lib → ChartVersion lib → Bool) →
      List (ChartVersion lib) → List (ChartVersion lib))
    (index : HelmRepoIndex) (chartName : String)
    (he : (index.entriesOf chartName).filterMap
      (fun entry => NewChartVersion lib entry.Version) = []) :
    resolveLatestVersion lib sortSort index chartName =
      ("", some ("no valid versions found for chart " ++ chartName)) := by
  unfold resolveLatestVersion
  simp only [he, List.length_nil, if_true]

/-- C1, as stated, fails: `1.0.0-01` and `1.0.0-1` both parse, the package
calls each of them less than the other, and for the index
`mychart: [1.0.0-01, 1.0.0-1]` the resolver returns `1.0.0-01`; no parsed entry
is both returned and not less than every parsed entry. -/
theorem resolve_returns_lower_version :
    (∃ e ∈ (scenarioIndex ["1.0.0-01", "1.0.0-1"]).entriesOf "mychart",
      mastermindsSemver.NewVersion e.Version ≠ none) ∧
    resolveLatestVersion mastermindsSemver insertionSort
      (scenarioIndex ["1.0.0-01", "1.0.0-1"]) "mychart" = ("1.0.0-01", none) ∧
    mastermindsSemver.NewVersion "1.0.0-01" = some ⟨1, 0, 0, ['0', '1'], []⟩ ∧
    mastermindsSemver.NewVersion "1.0.0-1" = some ⟨1, 0, 0, ['1'], []⟩ ∧
    mastermindsSemver.LessThan ⟨1, 0, 0, ['0', '1'], []⟩ ⟨1, 0, 0, ['1'], []⟩ = true ∧
    ¬ ∃ v, (∃ e ∈ (scenarioIndex ["1.0.0-01", "1.0.0-1"]).entriesOf "mychart",
        mastermindsSemver.NewVersion e.Version = some v) ∧
      resolveLatestVersion mastermindsSemver insertionSort
        (scenarioIndex ["1.0.0-01", "1.0.0-1"]) "mychart" =
        (mastermindsSemver.String v, none) ∧
      ∀ e ∈ (scenarioIndex ["1.0.0-01", "1.0.0-1"]).entriesOf "mychart", ∀ w,
        mastermindsSemver.NewVersion e.Version = some w →
        mastermindsSemver.LessThan v w = false := by
  refine ⟨⟨⟨"1.0.0-1"⟩, by decide, by decide⟩, by decide, by decide, by decide, by decide, ?_⟩
  rintro ⟨v, ⟨e, he, hv⟩, _, hmax⟩
  have h1 := hmax ⟨"1.0.0-01"⟩ (by decide) ⟨1, 0, 0, ['0', '1'], []⟩ (by decide)
  have h2 := hmax ⟨"1.0.0-1"⟩ (by decide) ⟨1, 0, 0, ['1'], []⟩ (by decide)
  have he1 : e ∈ [IndexEntry.mk "1.0.0-01", IndexEntry.mk "1.0.0-1"] := he
  simp only [List.mem_cons, List.mem_singleton, List.not_mem_nil, or_false] at he1
  rcases he1 with rfl | rfl
  · have hp : mastermindsSemver.NewVersion "1.0.0-01" = some ⟨1, 0, 0, ['0', '1'], []⟩ := by
      decide
    rw [hp] at hv
    cases hv
    exact absurd h2 (by decide)
  · have hp : mastermindsSemver.NewVersion "1.0.0-1" = some ⟨1, 0, 0, ['1'], []⟩ := by
      decide
    rw [hp] at hv
    cases hv
    exact absurd h1 (by decide)

/-- C1, amended: when the chart's entry list holds at least one string the
package parses, the resolver returns no error and the string form of a parsed
entry, whatever unparseable strings stand between them; that entry is not less
than any parsed entry whenever the package's `LessThan` is an ordering of the
parsed entries as `sort.Interface` requires. -/
theorem resolve_returns_maximum (lib : Semver)
    (sortSort : (ChartVersion lib → ChartVersion lib → Bool) →
      List (ChartVersion lib) → List (ChartVersion lib))
    (hsort : SortContractOn sortSort) (index : HelmRepoIndex) (chartName : String)
    (hex : ∃ e ∈ index.entriesOf chartName, lib.NewVersion e.Version ≠ none) :
    ∃ v, (∃ e ∈ index.entriesOf chartName, lib.NewVersion e.Version = some v) ∧
      resolveLatestVersion lib sortSort index chartName = (lib.String v, none) ∧
      (StrictWeakOrderOn (ChartVersions.Less lib) (parsedVersions lib index chartName) →
        ∀ e ∈ index.entriesOf chartName, ∀ w, lib.NewVersion e.Version = some w →
          lib.LessThan v w = false) := by
  obtain ⟨e, he, hv⟩ := hex
  obtain ⟨v0, hv0⟩ := Option.ne_none_iff_exists'.1 hv
  have hne : parsedVersions lib index chartName ≠ [] :=
    List.ne_nil_of_mem ((mem_parsed_iff lib _ ⟨v0⟩).2 ⟨e, he, hv0⟩)
  obtain ⟨cv, hmem, hres, hmax⟩ := resolve_some lib sortSort hsort index chartName hne
  refine ⟨cv.Version, (mem_parsed_iff lib _ cv).1 hmem, hres, fun hswo e1 he1 w hw => ?_⟩
  exact hmax hswo ⟨w⟩ ((mem_parsed_iff lib _ ⟨w⟩).2 ⟨e1, he1, hw⟩)

/-- Witness of C1, amended: an index with three parseable entries, among them
the `1.0.0-rc1` of scenario 5, and two unparseable ones between them. -/
theorem resolve_returns_maximum_witness :
    SortContractOn (insertionSort : (ChartVersion mastermindsSemver →
      ChartVersion mastermindsSemver → Bool) →
      List (ChartVersion mastermindsSemver) → List (ChartVersion mastermindsSemver)) ∧
    (∃ e ∈ (scenarioIndex ["abc", "1.0.0-rc1", "1.2.0", "latest", "1.0.0"]).entriesOf
        "mychart", mastermindsSemver.NewVersion e.Version ≠ none) ∧
    StrictWeakOrderOn (ChartVersions.Less mastermindsSemver)
      (parsedVersions mastermindsSemver
        (scenarioIndex ["abc", "1.0.0-rc1", "1.2.0", "latest", "1.0.0"]) "mychart") ∧
    resolveLatestVersion mastermindsSemver insertionSort
      (scenarioIndex ["abc", "1.0.0-rc1", "1.2.0", "latest", "1.0.0"]) "mychart" =
      ("1.2.0", none) ∧
    ∃ v, (∃ e ∈ (scenarioIndex ["abc", "1.0.0-rc1", "1.2.0", "latest", "1.0.0"]).entriesOf
        "mychart", mastermindsSemver.NewVersion e.Version = some v) ∧
      resolveLatestVersion mastermindsSemver insertionSort
        (scenarioIndex ["abc", "1.0.0-rc1", "1.2.0", "latest", "1.0.0"]) "mychart" =
        (mastermindsSemver.String v, none) ∧
      (StrictWeakOrderOn (ChartVersions.Less mastermindsSemver)
          (parsedVersions mastermindsSemver
            (scenarioIndex ["abc", "1.0.0-rc1", "1.2.0", "latest", "1.0.0"]) "mychart") →
        ∀ e ∈ (scenarioIndex ["abc", "1.0.0-rc1", "1.2.0", "latest", "1.0.0"]).entriesOf
          "mychart", ∀ w, mastermindsSemver.NewVersion e.Version = some w →
          mastermindsSemver.LessThan v w = false) :=
  ⟨insertionSort_contractOn, ⟨⟨"1.0.0-rc1"⟩, by decide, by decide⟩, by decide, by decide,
    resolve_returns_maximum mastermindsSemver insertionSort insertionSort_contractOn
      (scenarioIndex ["abc", "1.0.0-rc1", "1.2.0", "latest", "1.0.0"]) "mychart"
      ⟨⟨"1.0.0-rc1"⟩, by decide, by decide⟩⟩

/-- A chart name that is not a key of the index, or whose list is empty, has
no entry at all. -/
theorem entriesOf_absent_or_empty (index : HelmRepoIndex) (chartName : String)
    (h : index.Entries.lookup chartName = none ∨ index.Entries.lookup chartName = some []) :
    index.entriesOf chartName = [] := by
  unfold HelmRepoIndex.entriesOf
  rcases h with h | h <;> rw [h] <;> rfl

/-- C2: when the chart's entry list holds no string the package parses (the
chart is absent from the index, its list is empty, or every entry is
unparseable), the resolver fails with the "no valid versions" error and
returns the empty string. -/
theorem resolve_no_valid_versions (lib : Semver)
    (sortSort : (ChartVersion lib → ChartVersion lib → Bool) →
      List (ChartVersion lib) → List (ChartVersion lib))
    (index : HelmRepoIndex) (chartName : String)
    (hnone : index.Entries.lookup chartName = none ∨
      index.Entries.lookup chartName = some [] ∨
      ∀ e ∈ index.entriesOf chartName, lib.NewVersion e.Version = none) :
    resolveLatestVersion lib sortSort index chartName =
      ("", some ("no valid versions found for chart " ++ chartName)) := by
  have hall : ∀ e ∈ index.entriesOf chartName, lib.NewVersion e.Version = none := by
    rcases hnone with h | h | h
    · rw [entriesOf_absent_or_empty index chartName (Or.inl h)]
      intro e he
      cases he
    · rw [entriesOf_absent_or_empty index chartName (Or.inr h)]
      intro e he
      cases he
    · exact h
  apply resolve_none
  rw [List.filterMap_eq_nil_iff]
  intro e he
  unfold NewChartVersion
  rw [hall e he]

/-- Witness of C2: every entry of the chart is unparseable. -/
theorem resolve_no_valid_versions_witness :
    ((scenarioIndex ["abc", "1.x", "latest"]).Entries.lookup "mychart" = none ∨
      (scenarioIndex ["abc", "1.x", "latest"]).Entries.lookup "mychart" = some [] ∨
      ∀ e ∈ (scenarioIndex ["abc", "1.x", "latest"]).entriesOf "mychart",
        mastermindsSemver.NewVersion e.Version = none) ∧
    resolveLatestVersion mastermindsSemver insertionSort (scenarioIndex ["abc", "1.x", "latest"])
      "mychart" = ("", some ("no valid versions found for chart " ++ "mychart")) :=
  ⟨Or.inr (Or.inr (by decide)), resolve_no_valid_versions mastermindsSemver insertionSort
    (scenarioIndex ["abc", "1.x", "latest"]) "mychart" (Or.inr (Or.inr (by decide)))⟩

/-- C10, as stated, fails: `1.0.0+a` and `1.0.0+b` are equal in precedence, and
the resolver returns the one that comes last in the index. -/
theorem resolve_depends_on_order :
    ((scenarioIndex ["1.0.0+a", "1.0.0+b"]).entriesOf "mychart").Perm
      ((scenarioIndex ["1.0.0+b", "1.0.0+a"]).entriesOf "mychart") ∧
    resolveLatestVersion mastermindsSemver insertionSort (scenarioIndex ["1.0.0+a", "1.0.0+b"])
      "mychart" = ("1.0.0+b", none) ∧
    resolveLatestVersion mastermindsSemver insertionSort (scenarioIndex ["1.0.0+b", "1.0.0+a"])
      "mychart" = ("1.0.0+a", none) :=
  ⟨List.Perm.swap _ _ _, by decide, by decide⟩

/-- C10, amended: for two entry lists that are permutations of each other the
resolver fails with the no-valid-versions error on both or succeeds on both;
and whenever the package's `LessThan` is an ordering of the parsed entries as
`sort.Interface` requires, the two returned entries are equal in precedence
(neither is less than the other), and the two outcomes are the same if parsed
entries that are equal in precedence have the same string form. -/
theorem resolve_order_independent (lib : Semver)
    (sortSort : (ChartVersion lib → ChartVersion lib → Bool) →
      List (ChartVersion lib) → List (ChartVersion lib))
    (hsort : SortContractOn sortSort) (i1 i2 : HelmRepoIndex) (chartName : String)
    (hperm : (i1.entriesOf chartName).Perm (i2.entriesOf chartName)) :
    (resolveLatestVersion lib sortSort i1 chartName).2 =
        (resolveLatestVersion lib sortSort i2 chartName).2 ∧
      (StrictWeakOrderOn (ChartVersions.Less lib) (parsedVersions lib i1 chartName) →
        ((resolveLatestVersion lib sortSort i1 chartName).2 = none →
          ∃ v1 v2, (∃ e ∈ i1.entriesOf chartName, lib.NewVersion e.Version = some v1) ∧
            (∃ e ∈ i1.entriesOf chartName, lib.NewVersion e.Version = some v2) ∧
            resolveLatestVersion lib sortSort i1 chartName = (lib.String v1, none) ∧
            resolveLatestVersion lib sortSort i2 chartName = (lib.String v2, none) ∧
            lib.LessThan v1 v2 = false ∧ lib.LessThan v2 v1 = false) ∧
        ((∀ c1 ∈ parsedVersions lib i1 chartName, ∀ c2 ∈ parsedVersions lib i1 chartName,
            lib.LessThan c1.Version c2.Version = false →
            lib.LessThan c2.Version c1.Version = false →
            lib.String c1.Version = lib.String c2.Version) →
          resolveLatestVersion lib sortSort i1 chartName =
            resolveLatestVersion lib sortSort i2 chartName)) := by
  have hp : (parsedVersions lib i1 chartName).Perm (parsedVersions lib i2 chartName) :=
    hperm.filterMap _
  by_cases hnil : parsedVersions lib i1 chartName = []
  · have hnil2 : parsedVersions lib i2 chartName = [] := by
      rw [hnil] at hp
      exact (List.Perm.nil_eq hp).symm
    rw [resolve_none lib sortSort i1 chartName hnil, resolve_none lib sortSort i2 chartName hnil2]
    refine ⟨rfl, fun _ => ⟨fun h => ?_, fun _ => rfl⟩⟩
    exact absurd h (by simp)
  · have hnil2 : parsedVersions lib i2 chartName ≠ [] := by
      intro h2
      rw [h2] at hp
      exact hnil (List.Perm.eq_nil hp)
    obtain ⟨c1, hm1, hr1, hmax1⟩ := resolve_some lib sortSort hsort i1 chartName hnil
    obtain ⟨c2, hm2, hr2, hmax2⟩ := resolve_some lib sortSort hsort i2 chartName hnil2
    have hm2' := hp.symm.subset hm2
    rw [hr1, hr2]
    refine ⟨rfl, fun hswo => ?_⟩
    have h12 : lib.LessThan c1.Version c2.Version = false := hmax1 hswo c2 hm2'
    have h21 : lib.LessThan c2.Version c1.Version = false :=
      hmax2 (hswo.subset (fun y hy => hp.symm.subset hy)) c1 (hp.subset hm1)
    refine ⟨fun _ => ⟨c1.Version, c2.Version, (mem_parsed_iff lib _ c1).1 hm1,
      (mem_parsed_iff lib _ c2).1 hm2', rfl, rfl, h12, h21⟩, fun hstr => ?_⟩
    rw [hstr c1 hm1 c2 hm2' h12 h21]

/-- Witness of C10, amended: an index in which `1.2.0` and `v1.2.0` are equal
in precedence and have the same string form, and the same index with these two
entries exchanged. -/
theorem resolve_order_independent_witness :
    SortContractOn (insertionSort : (ChartVersion mastermindsSemver →
      ChartVersion mastermindsSemver → Bool) →
      List (ChartVersion mastermindsSemver) → List (ChartVersion mastermindsSemver)) ∧
    ((scenarioIndex ["1.2.0", "v1.2.0", "1.0.0"]).entriesOf "mychart").Perm
      ((scenarioIndex ["v1.2.0", "1.2.0", "1.0.0"]).entriesOf "mychart") ∧
    StrictWeakOrderOn (ChartVersions.Less mastermindsSemver)
      (parsedVersions mastermindsSemver (scenarioIndex ["1.2.0", "v1.2.0", "1.0.0"])
        "mychart") ∧
    (∀ c1 ∈ parsedVersions mastermindsSemver (scenarioIndex ["1.2.0", "v1.2.0", "1.0.0"])
        "mychart",
      ∀ c2 ∈ parsedVersions mastermindsSemver (scenarioIndex ["1.2.0", "v1.2.0", "1.0.0"])
        "mychart",
      mastermindsSemver.LessThan c1.Version c2.Version = false →
      mastermindsSemver.LessThan c2.Version c1.Version = false →
      mastermindsSemver.String c1.Version = mastermindsSemver.String c2.Version) ∧
    resolveLatestVersion mastermindsSemver insertionSort
      (scenarioIndex ["1.2.0", "v1.2.0", "1.0.0"]) "mychart" = ("1.2.0", none) ∧
    resolveLatestVersion mastermindsSemver insertionSort
        (scenarioIndex ["1.2.0", "v1.2.0", "1.0.0"]) "mychart" =
      resolveLatestVersion mastermindsSemver insertionSort
        (scenarioIndex ["v1.2.0", "1.2.0", "1.0.0"]) "mychart" :=
  ⟨insertionSort_contractOn, List.Perm.swap _ _ _, by decide, by decide, by decide,
    ((resolve_order_independent mastermindsSemver insertionSort insertionSort_contractOn
      (scenarioIndex ["1.2.0", "v1.2.0", "1.0.0"])
      (scenarioIndex ["v1.2.0", "1.2.0", "1.0.0"]) "mychart" (List.Perm.swap _ _ _)).2
      (by decide)).2 (by decide)⟩

/-! ## The claims about the per-file step -/

/-- The outcome of the lookup does not depend on the effects recorded so far. -/
theorem checkLatestHelmVersion_outcome (env : Env) (lib : Semver)
    (sortSort : (ChartVersion lib → ChartVersion lib → Bool) →
      List (ChartVersion lib) → List (ChartVersion lib))
    (repoURL chartName : String) (w1 w2 : World) :
    (checkLatestHelmVersion env lib sortSort repoURL chartName w1).1 =
      (checkLatestHelmVersion env lib sortSort repoURL chartName w2).1 := by
  unfold checkLatestHelmVersion
  dsimp only
  split
  · rfl
  · split
    · rfl
    · split <;> rfl

/-- What the per-file step does with a descriptor that names a chart. -/
theorem process_chart (env : Env) (lib : Semver)
    (sortSort : (ChartVersion lib → ChartVersion lib → Bool) →
      List (ChartVersion lib) → List (ChartVersion lib))
    (filePath : String) (results : List AppCheckResult) (w : World) (app : ArgoApplication)
    (hload : loadArgoApplicationFromFile env filePath = .ok app)
    (hchart : app.Spec.Source.Chart ≠ "") :
    (processArgoCDApplicationFile env lib sortSort filePath results w).1 =
      results ++ [{
        FilePath := filePath
        Application := app.Metadata.Name
        CurrentVersion := app.Spec.Source.TargetRevision
        LatestVersion := (checkLatestHelmVersion env lib sortSort app.Spec.Source.RepoURL
          app.Spec.Source.Chart w).1.1
        Status :=
          if (checkLatestHelmVersion env lib sortSort app.Spec.Source.RepoURL
              app.Spec.Source.Chart w).1.1 ≠ app.Spec.Source.TargetRevision then
            "Update available"
          else if (checkLatestHelmVersion env lib sortSort app.Spec.Source.RepoURL
              app.Spec.Source.Chart w).1.2 ≠ none then "Error"
          else "Up-to-date" }] := by
  unfold processArgoCDApplicationFile
  rw [hload]
  simp only [hchart, ne_eq, not_false_eq_true, if_true]
  rw [checkLatestHelmVersion_outcome env lib sortSort app.Spec.Source.RepoURL
    app.Spec.Source.Chart w
    { w with stdout := w.stdout ++ ["Checking Chart: " ++ app.Spec.Source.Chart ++ "\n"] }]

/-- What the per-file step does with a file that does not load, or with a
descriptor that names no chart. -/
theorem process_skip (env : Env) (lib : Semver)
    (sortSort : (ChartVersion lib → ChartVersion lib → Bool) →
      List (ChartVersion lib) → List (ChartVersion lib))
    (filePath : String) (results : List AppCheckResult) (w : World)
    (h : (∃ err, loadArgoApplicationFromFile env filePath = .error err) ∨
      ∃ app, loadArgoApplicationFromFile env filePath = .ok app ∧ app.Spec.Source.Chart = "") :
    processArgoCDApplicationFile env lib sortSort filePath results w = (results, w, none) := by
  unfold processArgoCDApplicationFile
  rcases h with ⟨err, h⟩ | ⟨app, h, hc⟩
  · rw [h]
  · rw [h]
    simp only [hc, ne_eq, not_true_eq_false, if_false]

/-- C4: a row has status "Error" only if the lookup failed; and when the lookup
succeeded the status is "Up-to-date" exactly when the target revision equals the
returned latest version as a string, and "Update available" otherwise. -/
theorem process_status (env : Env) (lib : Semver)
    (sortSort : (ChartVersion lib → ChartVersion lib → Bool) →
      List (ChartVersion lib) → List (ChartVersion lib))
    (filePath : String) (results : List AppCheckResult) (w : World) (row : AppCheckResult)
    (hrow : (processArgoCDApplicationFile env lib sortSort filePath results w).1 =
      results ++ [row]) :
    ∃ app, loadArgoApplicationFromFile env filePath = .ok app ∧
      app.Spec.Source.Chart ≠ "" ∧
      row.CurrentVersion = app.Spec.Source.TargetRevision ∧
      row.LatestVersion = (checkLatestHelmVersion env lib sortSort app.Spec.Source.RepoURL
        app.Spec.Source.Chart w).1.1 ∧
      (row.Status = "Error" →
        (checkLatestHelmVersion env lib sortSort app.Spec.Source.RepoURL
          app.Spec.Source.Chart w).1.2 ≠ none) ∧
      ((checkLatestHelmVersion env lib sortSort app.Spec.Source.RepoURL
          app.Spec.Source.Chart w).1.2 = none →
        (row.Status = "Up-to-date" ↔ app.Spec.Source.TargetRevision = row.LatestVersion) ∧
        (app.Spec.Source.TargetRevision ≠ row.LatestVersion →
          row.Status = "Update available")) := by
  cases hload : loadArgoApplicationFromFile env filePath with
  | error err =>
    rw [process_skip env lib sortSort filePath results w (Or.inl ⟨err, hload⟩)] at hrow
    simp at hrow
  | ok app =>
    by_cases hchart : app.Spec.Source.Chart = ""
    · rw [process_skip env lib sortSort filePath results w (Or.inr ⟨app, hload, hchart⟩)] at hrow
      simp at hrow
    · rw [process_chart env lib sortSort filePath results w app hload hchart] at hrow
      have hr := List.append_cancel_left hrow
      simp only [List.cons.injEq, and_true] at hr
      subst hr
      refine ⟨app, rfl, hchart, rfl, rfl, ?_, fun hok => ⟨?_, ?_⟩⟩
      · dsimp only
        split_ifs with h1 h2
        · intro h; exact absurd h (by decide)
        · intro _; exact h2
        · intro h; exact absurd h (by decide)
      · dsimp only
        split_ifs with h1 h2
        · exact ⟨fun h => absurd h (by decide), fun h => absurd h.symm h1⟩
        · exact absurd hok h2
        · exact ⟨fun _ => (not_not.1 h1).symm, fun _ => rfl⟩
      · dsimp only
        intro hne
        rw [if_pos (fun h => hne h.symm)]

/-- Witness of C4: end-to-end scenario 1, target `1.0.0` against the index
`mychart: [1.0.0, 1.2.0]`. -/
theorem process_status_witness :
    (processArgoCDApplicationFile (scenarioEnv (scenarioApp "1.0.0")
        (scenarioIndex ["1.0.0", "1.2.0"])) mastermindsSemver insertionSort "apps/app-a.yaml" []
        emptyWorld).1 =
      [] ++ [⟨"apps/app-a.yaml", "app-a", "1.0.0", "1.2.0", "Update available"⟩] ∧
    ∃ app, loadArgoApplicationFromFile (scenarioEnv (scenarioApp "1.0.0")
        (scenarioIndex ["1.0.0", "1.2.0"])) "apps/app-a.yaml" = .ok app ∧
      app.Spec.Source.Chart ≠ "" ∧
      (⟨"apps/app-a.yaml", "app-a", "1.0.0", "1.2.0", "Update available"⟩ :
        AppCheckResult).CurrentVersion = app.Spec.Source.TargetRevision ∧
      (⟨"apps/app-a.yaml", "app-a", "1.0.0", "1.2.0", "Update available"⟩ :
        AppCheckResult).LatestVersion =
        (checkLatestHelmVersion (scenarioEnv (scenarioApp "1.0.0")
          (scenarioIndex ["1.0.0", "1.2.0"])) mastermindsSemver insertionSort
          app.Spec.Source.RepoURL app.Spec.Source.Chart emptyWorld).1.1 ∧
      ((⟨"apps/app-a.yaml", "app-a", "1.0.0", "1.2.0", "Update available"⟩ :
        AppCheckResult).Status = "Error" →
        (checkLatestHelmVersion (scenarioEnv (scenarioApp "1.0.0")
          (scenarioIndex ["1.0.0", "1.2.0"])) mastermindsSemver insertionSort
          app.Spec.Source.RepoURL app.Spec.Source.Chart emptyWorld).1.2 ≠ none) ∧
      ((checkLatestHelmVersion (scenarioEnv (scenarioApp "1.0.0")
          (scenarioIndex ["1.0.0", "1.2.0"])) mastermindsSemver insertionSort
          app.Spec.Source.RepoURL app.Spec.Source.Chart emptyWorld).1.2 = none →
        ((⟨"apps/app-a.yaml", "app-a", "1.0.0", "1.2.0", "Update available"⟩ :
          AppCheckResult).Status = "Up-to-date" ↔
          app.Spec.Source.TargetRevision =
            (⟨"apps/app-a.yaml", "app-a", "1.0.0", "1.2.0", "Update available"⟩ :
              AppCheckResult).LatestVersion) ∧
        (app.Spec.Source.TargetRevision ≠
            (⟨"apps/app-a.yaml", "app-a", "1.0.0", "1.2.0", "Update available"⟩ :
              AppCheckResult).LatestVersion →
          (⟨"apps/app-a.yaml", "app-a", "1.0.0", "1.2.0", "Update available"⟩ :
            AppCheckResult).Status = "Update available")) :=
  ⟨by decide, process_status (scenarioEnv (scenarioApp "1.0.0")
    (scenarioIndex ["1.0.0", "1.2.0"])) mastermindsSemver insertionSort "apps/app-a.yaml" []
    emptyWorld ⟨"apps/app-a.yaml", "app-a", "1.0.0", "1.2.0", "Update available"⟩ (by decide)⟩

/-- A failed lookup returns the empty string. -/
theorem checkLatestHelmVersion_error_empty (env : Env) (lib : Semver)
    (sortSort : (ChartVersion lib → ChartVersion lib → Bool) →
      List (ChartVersion lib) → List (ChartVersion lib))
    (repoURL chartName : String) (w : World)
    (herr : (checkLatestHelmVersion env lib sortSort repoURL chartName w).1.2 ≠ none) :
    (checkLatestHelmVersion env lib sortSort repoURL chartName w).1.1 = "" := by
  unfold checkLatestHelmVersion at herr ⊢
  dsimp only at herr ⊢
  split
  · rfl
  · split
    · rfl
    · split
      · rfl
      · rename_i index _
        simp only [*] at herr
        unfold resolveLatestVersion at herr ⊢
        dsimp only at herr ⊢
        split
        · rfl
        · rename_i hlen
          simp only [hlen, if_false] at herr
          split
          · rename_i hlast
            rw [hlast] at herr
            exact absurd rfl herr
          · rfl

/-- After a failed lookup the row says "Error" only for an empty target
revision, and "Update available" for every other. -/
theorem process_failed_lookup_status (env : Env) (lib : Semver)
    (sortSort : (ChartVersion lib → ChartVersion lib → Bool) →
      List (ChartVersion lib) → List (ChartVersion lib))
    (filePath : String) (results : List AppCheckResult) (w : World) (app : ArgoApplication)
    (hload : loadArgoApplicationFromFile env filePath = .ok app)
    (hchart : app.Spec.Source.Chart ≠ "")
    (herr : (checkLatestHelmVersion env lib sortSort app.Spec.Source.RepoURL
      app.Spec.Source.Chart w).1.2 ≠ none) :
    (processArgoCDApplicationFile env lib sortSort filePath results w).1 =
      results ++ [{
        FilePath := filePath
        Application := app.Metadata.Name
        CurrentVersion := app.Spec.Source.TargetRevision
        LatestVersion := ""
        Status := if app.Spec.Source.TargetRevision = "" then "Error"
          else "Update available" }] := by
  rw [process_chart env lib sortSort filePath results w app hload hchart,
    checkLatestHelmVersion_error_empty env lib sortSort _ _ w herr]
  by_cases ht : app.Spec.Source.TargetRevision = ""
  · simp [ht, herr]
  · have ht' : ¬ "" = app.Spec.Source.TargetRevision := fun h => ht h.symm
    simp [ht, ht']

/-- C3, the failing input: the manifest of scenario 3 (target `1.0.0`) with a
repository that cannot be reached. The lookup fails, and the row is recorded
with status "Update available", not "Error". -/
theorem process_fetch_failure_row :
    (checkLatestHelmVersion (offlineEnv (scenarioApp "1.0.0")) mastermindsSemver insertionSort
        "https://charts.example.com" "mychart" emptyWorld).1 =
      ("", some "dial tcp: connection refused") ∧
    (processArgoCDApplicationFile (offlineEnv (scenarioApp "1.0.0")) mastermindsSemver insertionSort
        "apps/app-a.yaml" [] emptyWorld).1 =
      [⟨"apps/app-a.yaml", "app-a", "1.0.0", "", "Update available"⟩] :=
  ⟨by decide, by decide⟩

/-- C6: for a manifest that loads into a descriptor with an empty chart, the
per-file step leaves the result collection as it was, makes no lookup, prints
nothing and returns no error. -/
theorem process_no_chart (env : Env) (lib : Semver)
    (sortSort : (ChartVersion lib → ChartVersion lib → Bool) →
      List (ChartVersion lib) → List (ChartVersion lib))
    (filePath : String) (results : List AppCheckResult) (w : World) (app : ArgoApplication)
    (hload : loadArgoApplicationFromFile env filePath = .ok app)
    (hchart : app.Spec.Source.Chart = "") :
    processArgoCDApplicationFile env lib sortSort filePath results w = (results, w, none) :=
  process_skip env lib sortSort filePath results w (Or.inr ⟨app, hload, hchart⟩)

/-- Witness of C6: end-to-end scenario 4, a manifest with a plain Git source,
processed after one row was collected. -/
theorem process_no_chart_witness :
    loadArgoApplicationFromFile (offlineEnv gitApp) "apps/git.yaml" = .ok gitApp ∧
    gitApp.Spec.Source.Chart = "" ∧
    processArgoCDApplicationFile (offlineEnv gitApp) mastermindsSemver insertionSort "apps/git.yaml"
        [⟨"apps/app-a.yaml", "app-a", "1.0.0", "1.2.0", "Update available"⟩] emptyWorld =
      ([⟨"apps/app-a.yaml", "app-a", "1.0.0", "1.2.0", "Update available"⟩], emptyWorld, none) :=
  ⟨rfl, rfl, process_no_chart (offlineEnv gitApp) mastermindsSemver insertionSort "apps/git.yaml"
    [⟨"apps/app-a.yaml", "app-a", "1.0.0", "1.2.0", "Update available"⟩] emptyWorld gitApp
    rfl rfl⟩

/-! ## The claims about the directory walk -/

/-- A walk whose callback never fails returns no error. -/
theorem Walk_no_error {σ : Type} (fn : WalkEntry → σ → σ × Option Error)
    (entries : List WalkEntry) (hfn : ∀ e ∈ entries, ∀ s, (fn e s).2 = none) (s : σ) :
    (Walk fn entries s).2 = none := by
  induction entries generalizing s with
  | nil => rfl
  | cons e rest ih =>
    unfold Walk
    have he := hfn e (List.mem_cons_self e rest) s
    cases hr : fn e s with
    | mk s1 err =>
      rw [hr] at he
      dsimp only at he
      subst he
      exact ih (fun x hx => hfn x (List.mem_cons_of_mem e hx)) s1

/-- A walk over two stretches of entries runs the second one from the state
the first one leaves, unless the first one fails. -/
theorem Walk_append {σ : Type} (fn : WalkEntry → σ → σ × Option Error)
    (l1 l2 : List WalkEntry) (s : σ) :
    Walk fn (l1 ++ l2) s =
      match Walk fn l1 s with
      | (s1, some err) => (s1, some err)
      | (s1, none) => Walk fn l2 s1 := by
  induction l1 generalizing s with
  | nil => rfl
  | cons e rest ih =>
    simp only [List.cons_append, Walk]
    cases hr : fn e s with
    | mk s1 err =>
      cases err with
      | none => exact ih s1
      | some err => rfl

/-- The test of line 32 is the test `isManifest`. -/
theorem isManifest_iff (e : WalkEntry) :
    (!e.isDir && (HasSuffix e.path ".yaml" || HasSuffix e.path ".yml")) = isManifest e := by
  unfold isManifest
  cases e.isDir <;> cases HasSuffix e.path ".yaml" <;> cases HasSuffix e.path ".yml" <;> rfl

/-- Without a traversal error, `walkDir` is the callback run on the manifest
files in order. -/
theorem walkDir_eq_callInOrder {σ : Type} (processFile : String → σ → σ × Option Error)
    (entries : List WalkEntry) (hok : ∀ e ∈ entries, e.err = none) (s : σ) :
    walkDir entries processFile s =
      callInOrder processFile ((entries.filter isManifest).map WalkEntry.path) s := by
  unfold walkDir
  induction entries generalizing s with
  | nil => rfl
  | cons e rest ih =>
    have he := hok e (List.mem_cons_self e rest)
    have ih' := ih (fun x hx => hok x (List.mem_cons_of_mem e hx))
    unfold Walk walkDirFunc
    rw [he, isManifest_iff]
    cases hm : isManifest e with
    | false =>
      simp only [Bool.false_eq_true, if_false, List.filter_cons_of_neg, hm, not_false_eq_true]
      exact ih' s
    | true =>
      simp only [if_true, List.filter_cons_of_pos, hm, List.map_cons, callInOrder]
      cases hr : processFile e.path s with
      | mk s1 err =>
        cases err with
        | none => exact ih' s1
        | some err => rfl

/-- A callback that only records its argument ends up with the paths it was
called on. -/
theorem callInOrder_record (paths log : List String) :
    callInOrder (fun p (seen : List String) => (seen ++ [p], (none : Option Error))) paths log =
      (log ++ paths, none) := by
  induction paths generalizing log with
  | nil => simp [callInOrder]
  | cons p ps ih =>
    unfold callInOrder
    dsimp only
    rw [ih]
    simp

/-- C7: whatever loading the file and the lookup give, the per-file step
returns no error, and the result collection afterwards is the collection
before, unchanged and in the same order, followed by at most one new row, and
by none when the file does not load; so the walk of `main` fails only on a
traversal error. -/
theorem process_never_fails (env : Env) (lib : Semver)
    (sortSort : (ChartVersion lib → ChartVersion lib → Bool) →
      List (ChartVersion lib) → List (ChartVersion lib))
    (filePath : String) (results : List AppCheckResult) (w : World) :
    (processArgoCDApplicationFile env lib sortSort filePath results w).2.2 = none ∧
      (∃ rows, rows.length ≤ 1 ∧
        (processArgoCDApplicationFile env lib sortSort filePath results w).1 =
          results ++ rows) ∧
      ((∃ err, loadArgoApplicationFromFile env filePath = .error err) →
        (processArgoCDApplicationFile env lib sortSort filePath results w).1 = results) ∧
      (∀ entries : List WalkEntry, (∀ e ∈ entries, e.err = none) →
        (walkDir entries (mainProcessFile env lib sortSort) (results, w)).2 = none) := by
  have hnone : ∀ (fp : String) (rs : List AppCheckResult) (w0 : World),
      (processArgoCDApplicationFile env lib sortSort fp rs w0).2.2 = none := by
    intro fp rs w0
    unfold processArgoCDApplicationFile
    split
    · rfl
    · split <;> rfl
  refine ⟨hnone filePath results w, ?_, fun h => ?_, fun entries hok => ?_⟩
  · cases hload : loadArgoApplicationFromFile env filePath with
    | error err =>
      refine ⟨[], by simp, ?_⟩
      rw [process_skip env lib sortSort filePath results w (Or.inl ⟨err, hload⟩)]
      simp
    | ok app =>
      by_cases hchart : app.Spec.Source.Chart = ""
      · refine ⟨[], by simp, ?_⟩
        rw [process_skip env lib sortSort filePath results w (Or.inr ⟨app, hload, hchart⟩)]
        simp
      · exact ⟨_, by simp, process_chart env lib sortSort filePath results w app hload hchart⟩
  · rw [process_skip env lib sortSort filePath results w (Or.inl h)]
  · unfold walkDir
    apply Walk_no_error
    intro e he s
    unfold walkDirFunc
    rw [hok e he]
    dsimp only
    split
    · unfold mainProcessFile
      exact hnone e.path s.1 s.2
    · rfl

/-- C9: over entries reached without a traversal error, `walkDir` invokes the
callback, in traversal order, on exactly the entries that are not directories
and whose path ends in `.yaml` or `.yml`; and when the next entry carries a
traversal error, `walkDir` returns that error and invokes the callback on no
later entry. -/
theorem walkDir_calls {σ : Type} (processFile : String → σ → σ × Option Error)
    (reached later : List WalkEntry) (s : σ) (hok : ∀ e ∈ reached, e.err = none) :
    walkDir reached processFile s =
        callInOrder processFile ((reached.filter isManifest).map WalkEntry.path) s ∧
      walkDir reached (fun p (seen : List String) => (seen ++ [p], (none : Option Error))) [] =
        ((reached.filter isManifest).map WalkEntry.path, none) ∧
      (∀ (e : WalkEntry) (err : Error), e.err = some err →
        (callInOrder processFile ((reached.filter isManifest).map WalkEntry.path) s).2 = none →
        walkDir (reached ++ e :: later) processFile s =
          ((callInOrder processFile ((reached.filter isManifest).map WalkEntry.path) s).1,
            some err)) := by
  refine ⟨walkDir_eq_callInOrder processFile reached hok s, ?_, fun e err he hcall => ?_⟩
  · rw [walkDir_eq_callInOrder _ reached hok, callInOrder_record]
    simp
  · have h1 := walkDir_eq_callInOrder processFile reached hok s
    unfold walkDir at h1 ⊢
    rw [Walk_append, h1]
    cases hr : callInOrder processFile ((reached.filter isManifest).map WalkEntry.path) s with
    | mk s1 r =>
      rw [hr] at hcall
      dsimp only at hcall
      subst hcall
      dsimp only
      unfold Walk walkDirFunc
      rw [he]

/-- Witness of C9: a directory with two manifests, a text file and a
subdirectory named like a manifest, followed by an unreadable directory and a
manifest that is never reached. -/
theorem walkDir_calls_witness :
    (∀ e ∈ [(⟨"apps", true, none⟩ : WalkEntry), ⟨"apps/a.yaml", false, none⟩,
        ⟨"apps/notes.txt", false, none⟩, ⟨"apps/b.yml", false, none⟩,
        ⟨"apps/dir.yaml", true, none⟩], e.err = none) ∧
    walkDir [(⟨"apps", true, none⟩ : WalkEntry), ⟨"apps/a.yaml", false, none⟩,
        ⟨"apps/notes.txt", false, none⟩, ⟨"apps/b.yml", false, none⟩,
        ⟨"apps/dir.yaml", true, none⟩]
        (fun p (seen : List String) => (seen ++ [p], (none : Option Error))) [] =
      (["apps/a.yaml", "apps/b.yml"], none) ∧
    walkDir ([(⟨"apps", true, none⟩ : WalkEntry), ⟨"apps/a.yaml", false, none⟩,
        ⟨"apps/notes.txt", false, none⟩, ⟨"apps/b.yml", false, none⟩,
        ⟨"apps/dir.yaml", true, none⟩] ++
        ⟨"apps/secret", true, some "permission denied"⟩ :: [⟨"apps/z.yaml", false, none⟩])
        (fun p (seen : List String) => (seen ++ [p], (none : Option Error))) [] =
      (["apps/a.yaml", "apps/b.yml"], some "permission denied") :=
  ⟨by decide,
    (walkDir_calls (fun p (seen : List String) => (seen ++ [p], (none : Option Error)))
      [⟨"apps", true, none⟩, ⟨"apps/a.yaml", false, none⟩, ⟨"apps/notes.txt", false, none⟩,
        ⟨"apps/b.yml", false, none⟩, ⟨"apps/dir.yaml", true, none⟩]
      [⟨"apps/z.yaml", false, none⟩] [] (by decide)).2.1,
    by decide⟩

end ArgoHelmVersioner
